import Mathlib

/-!
Verification development for the USLCI transport pipeline
(`build_transportation_olca_objects.py`).

The script is a single-pass ETL pipeline: it reads a CSV of weighted
commodity transport distances, builds a mode-centric parameter table
(`build_df_params`), assigns flow/provider fields and amount formulas to
exchange rows (`assign_amount_formula`), synthesizes a reference flow per
process, and partitions the rows by process for emission.

Strings are embedded as lists of Unicode code points (`List ℕ`), so that
Python's character-level operations (`str.replace`, `str.strip`,
`str.lower`, substring tests) become executable Lean functions whose
behaviour the kernel can evaluate on concrete inputs.  Numeric cell
values are embedded as rationals; a missing value (pandas `NaN`) is
`Option.none`.  External library collaborators (`make_uuid`,
`format_dqi_score`, `prepare_tech_flow_mappings`, the ISO-3166 table) are
abstract inputs to the embedded pipeline.
-/

/-- Code points of a string literal; the embedding of Python `str` values. -/
def chars (s : String) : List ℕ := s.toList.map Char.toNat

/-- Does `pat` occur at the start of `s`?  (Python `str.startswith`.) -/
def beginsWith : List ℕ → List ℕ → Bool
  | [], _ => true
  | _ :: _, [] => false
  | p :: ps, c :: cs => p == c && beginsWith ps cs

/-- Does `pat` occur somewhere in `s`?  (Python `pat in s`, for nonempty `pat`.) -/
def hasSub (pat : List ℕ) : List ℕ → Bool
  | [] => pat.isEmpty
  | c :: cs => beginsWith pat (c :: cs) || hasSub pat cs

/-- Fuelled worker for `replaceAll`:  Python `str.replace(pat, rep)`, which
substitutes every non-overlapping occurrence of `pat` left to right.
`fuel ≥ s.length` is always sufficient because each step consumes at least
one character of `s`. -/
def replaceAllF (pat rep : List ℕ) : ℕ → List ℕ → List ℕ
  | 0, s => s
  | _ + 1, [] => []
  | n + 1, c :: cs =>
    if pat ≠ [] ∧ beginsWith pat (c :: cs) = true then
      rep ++ replaceAllF pat rep n ((c :: cs).drop pat.length)
    else
      c :: replaceAllF pat rep n cs

/-- Python `s.replace(pat, rep)` for a nonempty pattern `pat`. -/
def replaceAll (pat rep s : List ℕ) : List ℕ :=
  replaceAllF pat rep s.length s

/-- Python whitespace class used by `str.strip()` (space, \t, \n, \r, \v, \f). -/
def isPySpace (c : ℕ) : Bool :=
  c == 32 || c == 9 || c == 10 || c == 13 || c == 11 || c == 12

/-- Python `str.strip()`: drop leading and trailing whitespace. -/
def stripPy (s : List ℕ) : List ℕ :=
  ((s.dropWhile isPySpace).reverse.dropWhile isPySpace).reverse

/-- ASCII lowercasing of one code point (Python `str.lower` on the ASCII
range, the only range exercised by this dataset). -/
def lowerNat (c : ℕ) : ℕ :=
  if 65 ≤ c ∧ c ≤ 90 then c + 32 else c

/-- Python `str.lower()`. -/
def lowerList (s : List ℕ) : List ℕ := s.map lowerNat

/-- The two-space pattern of the whitespace-collapse loop. -/
def sp2 : List ℕ := chars "  "

/-- A single space, the replacement of the collapse loop. -/
def sp1 : List ℕ := chars " "

/-- Fuelled embedding of the loop `while "  " in s: s = s.replace("  ", " ")`
in `_normalize_mode`.  Each iteration strictly shrinks `s`, so fuel
`s.length` always suffices (proved below). -/
def collapseFuel : ℕ → List ℕ → List ℕ
  | 0, s => s
  | n + 1, s =>
    if hasSub sp2 s = true then collapseFuel n (replaceAll sp2 sp1 s) else s

/-- The whitespace-collapse loop of `_normalize_mode`, run to completion. -/
def collapse (s : List ℕ) : List ℕ := collapseFuel s.length s

/-- The over-encoded ampersand artifact searched for by `_normalize_mode`. -/
def amp4 : List ℕ := chars "&amp;amp;amp;amp;"

/-- The replacement written by `_normalize_mode` for the artifact. -/
def amp3 : List ℕ := chars "&amp;amp;amp;"

/-- `_normalize_mode` from `build_df_params` (lines 157-163):
`str(s).replace("&amp;amp;amp;amp;", "&amp;amp;amp;").strip().lower()`
followed by the double-space collapse loop. -/
def normalizeMode (s : List ℕ) : List ℕ :=
  collapse (lowerList (stripPy (replaceAll amp4 amp3 s)))

/-- The shorter ampersand artifact used by `_norm_mode` in
`assign_amount_formula`. -/
def amp2 : List ℕ := chars "&amp;amp;"

/-- `_norm_mode` from `assign_amount_formula` (lines 216-217):
`str(s).strip().lower().replace("&amp;amp;amp;", "&amp;amp;").replace("  ", " ")`.
Note: different operation order from `_normalize_mode`, and a single
(non-looped) double-space replace. -/
def normMode2 (s : List ℕ) : List ℕ :=
  replaceAll sp2 sp1 (replaceAll amp3 amp2 (lowerList (stripPy s)))

/-- First-match association-list lookup. -/
def alookup {κ α : Type} [DecidableEq κ] (k : κ) : List (κ × α) → Option α
  | [] => none
  | (k', v) :: rest => if k = k' then some v else alookup k rest

/-- Lookup with Python `dict` semantics: when a key is bound twice during
dict construction, the later binding wins, so we search the reversed list. -/
def dlookup {κ α : Type} [DecidableEq κ] (k : κ) (m : List (κ × α)) : Option α :=
  alookup k m.reverse

/-- Decimal rendering of a row index, as interpolated into Python error
messages. -/
def natChars (n : ℕ) : List ℕ := (toString n).toList.map Char.toNat

/-! ## Data model

One row of `Weighted_Commodity_Transport_Distances.csv`, as consumed by
`build_df_params` (which re-reads the full CSV) and by the `df_olca`
pipeline (which drops `Mass Shipped (kg)`, `Avg. Dist. Shipped (km)` and
`Mass Frac. by Mode` and keeps `Weighted Dist. Shipped (km)` as `amount`).
The unused `Mass Shipped (kg)` column is not modelled. -/
structure CsvRow where
  commodity : List ℕ
  transportMode : List ℕ
  avgDist : ℚ
  massFrac : ℚ
  weightedDist : ℚ
deriving DecidableEq

/-- One row of the parameter table built by `build_df_params`
(columns `processName, formula, isInputParameter, name, value, description`).
`value = none` embeds the `np.nan` written for derived parameters;
`isInputParameter` keeps the literal `"TRUE"` / `"FALSE"` strings. -/
structure ParamRow where
  processName : List ℕ
  formula : List ℕ
  isInputParameter : List ℕ
  name : List ℕ
  value : Option ℚ
  description : List ℕ
deriving DecidableEq

/-- The fixed `param_map` table (lines 133-142). -/
def paramMap : List (List ℕ × List ℕ) :=
  [(chars "company-owned truck", chars "lightTruck"),
   (chars "for-hire truck", chars "longHaul"),
   (chars "rail", chars "rail"),
   (chars "great lakes", chars "greatLakes"),
   (chars "inland water", chars "inlandWater"),
   (chars "air(incl. truck & air)", chars "air"),
   (chars "deep sea", chars "deepSea"),
   (chars "pipeline", chars "pipeline")]

/-- `norm_param_map` of `build_df_params`: dict comprehension mapping each
normalized `param_map` key to its mode key. -/
def normParamMap (pm : List (List ℕ × List ℕ)) : List (List ℕ × List ℕ) :=
  pm.map (fun kv => (normalizeMode kv.1, kv.2))

/-- `_process_name` of `build_df_params`:
`f"Transport; average mix; {commodity.strip().lower()}"`. -/
def paramProcessName (commodity : List ℕ) : List ℕ :=
  chars "Transport; average mix; " ++ lowerList (stripPy commodity)

/-- The `KeyError` message raised by `build_df_params` (line 181):
`f"Mode '{row['Transport Mode']}' not in param_map (row {idx})"`.
Code point 39 is the apostrophe around the raw label. -/
def modeErrMsg (rawMode : List ℕ) (idx : ℕ) : List ℕ :=
  chars "Mode " ++ [39] ++ rawMode ++ [39] ++
    chars " not in param_map (row " ++ natChars idx ++ chars ")"

/-- The three parameter rows appended by `build_df_params` for one CSV row
whose mode key is `k` (lines 183-195). -/
def paramTriple (k : List ℕ) (r : CsvRow) : List ParamRow :=
  [⟨paramProcessName r.commodity, chars "", chars "TRUE",
      k ++ chars "_dist", some r.avgDist, chars "km"⟩,
   ⟨paramProcessName r.commodity, chars "", chars "TRUE",
      k ++ chars "_mass_frac", some r.massFrac,
      chars "fraction of all commodity shipped by current mode"⟩,
   ⟨paramProcessName r.commodity,
      (k ++ chars "_dist") ++ chars "*" ++ (k ++ chars "_mass_frac"),
      chars "FALSE", k ++ chars "_kgkm", none,
      chars "kg*km; average mass distance per shipment"⟩]

/-- The row loop of `build_df_params` (lines 176-195): `idx` tracks the
DataFrame index interpolated into the error message; the first row whose
normalized mode is not a key of `norm_param_map` raises `KeyError`. -/
def buildParamRows (pm : List (List ℕ × List ℕ)) :
    ℕ → List CsvRow → Except (List ℕ) (List ParamRow)
  | _, [] => .ok []
  | idx, r :: rest =>
    match dlookup (normalizeMode r.transportMode) (normParamMap pm) with
    | none => .error (modeErrMsg r.transportMode idx)
    | some k =>
      match buildParamRows pm (idx + 1) rest with
      | .error e => .error e
      | .ok tail => .ok (paramTriple k r ++ tail)

/-- `build_df_params(df_commData, param_map)` (lines 145-197). -/
def build_df_params (rows : List CsvRow) (pm : List (List ℕ × List ℕ)) :
    Except (List ℕ) (List ParamRow) :=
  buildParamRows pm 0 rows

/-- The top-level parameter stage (lines 200-201): build the table, then —
only on success — write `uslci_transport_params.csv`.  The second component
ok-branch lists the files written by the stage; an uncaught `KeyError`
aborts the script before the write. -/
def runParamsStage (rows : List CsvRow) (pm : List (List ℕ × List ℕ)) :
    Except (List ℕ) (List ParamRow × List (List ℕ)) :=
  match build_df_params rows pm with
  | .error e => .error e
  | .ok ps => .ok (ps, [chars "uslci_transport_params.csv"])

/-- The (process name, mode key) pair that scopes one CSV row's parameter
triple; two rows clash exactly when both components coincide. -/
def paramRowKey (pm : List (List ℕ × List ℕ)) (r : CsvRow) :
    List ℕ × Option (List ℕ) :=
  (paramProcessName r.commodity,
   dlookup (normalizeMode r.transportMode) (normParamMap pm))

/-- The parameter rows contributed by one CSV row when `build_df_params`
succeeds (empty in the unreachable unmapped case). -/
def rowTriple (pm : List (List ℕ × List ℕ)) (r : CsvRow) : List ParamRow :=
  match dlookup (normalizeMode r.transportMode) (normParamMap pm) with
  | none => []
  | some k => paramTriple k r

/-! ## Exchange rows and the df_olca pipeline -/

/-- One working row of `df_olca` after the schema columns are added.
`Option` fields embed cells that pandas leaves as `NaN` when a `.map`
lookup misses; the `location` merge fills `countryCode`. -/
structure ExchangeRow where
  sctg : Option (List ℕ)
  commodity : List ℕ
  transportMode : List ℕ
  processID : List ℕ
  processCategory : List ℕ
  processName : List ℕ
  flowUUID : Option (List ℕ)
  flowName : Option (List ℕ)
  amountFormula : Option (List ℕ)
  context : List ℕ
  isInput : Bool
  flowType : List ℕ
  reference : Bool
  defaultProvider : Option (List ℕ)
  defaultProviderName : Option (List ℕ)
  amount : ℚ
  unit : List ℕ
  avoidedProduct : Bool
  exchangeDqi : List ℕ
  location : List ℕ
  year : ℕ
  countryCode : Option (List ℕ)
deriving DecidableEq

/-- The suffix filtered for by `assign_amount_formula`. -/
def kgkmSuffix : List ℕ := chars "_kgkm"

/-- `dfp["name"].str.endswith("_kgkm")`. -/
def endsKgkm (s : List ℕ) : Bool :=
  beginsWith kgkmSuffix.reverse s.reverse

/-- `dfp["name"].str.replace(r"_kgkm$", "", regex=True)`: strip the
trailing `_kgkm` when present. -/
def stripKgkm (s : List ℕ) : List ℕ :=
  if endsKgkm s then s.take (s.length - kgkmSuffix.length) else s

/-- `mode_to_token` of `assign_amount_formula`: dict from `_norm_mode`-normalized
labels to mode keys. -/
def modeToToken (pm : List (List ℕ × List ℕ)) : List (List ℕ × List ℕ) :=
  pm.map (fun kv => (normMode2 kv.1, kv.2))

/-- The `(processName, mode_token) -> name` lookup of `assign_amount_formula`
(lines 221-225): restrict the parameter table to `*_kgkm` rows, key each by
`(processName, name without the suffix)`, and read the dict (last binding
wins, as in `Series.to_dict`). -/
def kgkmLookup (params : List ParamRow) (key : List ℕ × List ℕ) :
    Option (List ℕ) :=
  dlookup key
    ((params.filter (fun p => endsKgkm p.name)).map
      (fun p => ((p.processName, stripKgkm p.name), p.name)))

/-- Per-row body of `assign_amount_formula` (lines 227-234): compute the
mode token of the row and overwrite `amountFormula` with the looked-up
`*_kgkm` name, or leave it missing when either lookup misses. -/
def assignRow (params : List ParamRow) (pm : List (List ℕ × List ℕ))
    (r : ExchangeRow) : ExchangeRow :=
  { r with
    amountFormula :=
      match dlookup (normMode2 r.transportMode) (modeToToken pm) with
      | none => none
      | some t => kgkmLookup params (r.processName, t) }

/-- `assign_amount_formula(df_olca, df_param, param_map)` (lines 208-235). -/
def assign_amount_formula (rows : List ExchangeRow)
    (params : List ParamRow) (pm : List (List ℕ × List ℕ)) :
    List ExchangeRow :=
  rows.map (assignRow params pm)

/-- One row of the external `transport_mapping.csv`, after
`prepare_tech_flow_mappings` has turned it into the `flow_dict` entries
`{mode: {name, id, provider}}` consumed by lines 249-258. -/
structure FlowMapEntry where
  mode : List ℕ
  name : List ℕ
  id : List ℕ
  provider : List ℕ
deriving DecidableEq

/-- `df_olca` right after the CSV read, the column drops/renames and the
SCTG join (lines 36-66 and 119): one exchange row per CSV row, with
`amount` holding `Weighted Dist. Shipped (km)` and `sctg` the (possibly
missing) taxonomy code.  The `''` placeholders the script pours into the
schema columns are embedded as the empty string / `none` / `false` / `0`;
every one of them is overwritten before use by the later stages. -/
def initRow (codes : List (List ℕ × List ℕ)) (c : CsvRow) : ExchangeRow :=
  { sctg := dlookup c.commodity codes
    commodity := c.commodity
    transportMode := c.transportMode
    processID := chars ""
    processCategory := chars ""
    processName := chars ""
    flowUUID := none
    flowName := none
    amountFormula := none
    context := chars ""
    isInput := false
    flowType := chars ""
    reference := false
    defaultProvider := none
    defaultProviderName := none
    amount := c.weightedDist
    unit := chars ""
    avoidedProduct := false
    exchangeDqi := chars ""
    location := chars ""
    year := 0
    countryCode := none }

/-- Lines 238-242: static per-row assignments.  The process name is
`'Transport; average mix; ' + commodity.str.lower()` (no strip, unlike
`_process_name` inside `build_df_params`), and the process id is
`make_uuid(ProcessName)`; `uuid` is that external generator. -/
def assignStatics (uuid : List ℕ → List ℕ) (r : ExchangeRow) : ExchangeRow :=
  { r with
    isInput := true
    reference := false
    unit := chars "kg*km"
    processName := chars "Transport; average mix; " ++ lowerList r.commodity
    processID := uuid (chars "Transport; average mix; " ++ lowerList r.commodity) }

/-- Lines 249-262: the four `.map` lookups filling flow and provider
fields from `flow_dict` / `provider_dict`.  A missing key leaves the cell
`NaN` (`none`); no exception is raised by any of these lookups. -/
def assignFlowFields (fm : List FlowMapEntry)
    (provs : List (List ℕ × List ℕ)) (r : ExchangeRow) : ExchangeRow :=
  { r with
    flowName := (dlookup r.transportMode (fm.map fun e => (e.mode, e))).map (·.name)
    flowUUID := (dlookup r.transportMode (fm.map fun e => (e.mode, e))).map (·.id)
    defaultProviderName :=
      (dlookup r.transportMode (fm.map fun e => (e.mode, e))).map (·.provider)
    defaultProvider :=
      ((dlookup r.transportMode (fm.map fun e => (e.mode, e))).map (·.provider)).bind
        (fun n => dlookup n provs) }

/-- Lines 310-316 and 322: fields shared by all input rows.  `category` is
`meta.get("Category")` from the flow-metadata YAML and `dqi` is
`format_dqi_score(meta['DQI']['Flow'])`, both external inputs. -/
def assignShared (category dqi : List ℕ) (r : ExchangeRow) : ExchangeRow :=
  { r with
    processCategory := category
    context := chars "Technosphere flows / 48-49: Transportation and Warehousing"
    flowType := chars "PRODUCT_FLOW"
    avoidedProduct := false
    location := chars "US"
    year := 2017
    exchangeDqi := dqi }

/-- Lines 329-333: the left merge with the ISO-3166 table on the single
shared column `location`, filling `CountryCode`.  A row with no match is
kept once with `countryCode` missing; a row with matches is repeated once
per matching ISO row, as `pandas.merge(how='left')` does. -/
def mergeIso (iso : List (List ℕ × List ℕ)) (r : ExchangeRow) :
    List ExchangeRow :=
  match iso.filter (fun e => e.1 == r.location) with
  | [] => [{ r with countryCode := none }]
  | ms => ms.map (fun e => { r with countryCode := some e.2 })

/-- The name of the reference flow (line 270). -/
def refFlowName : List ℕ := chars "Commodity transport; at consumer"

/-- The `ref_flow` template dict (lines 276-299).  `refUUID` stands for
`make_uuid([refFlowName, 'uslci-transport'])`; the literal `'nan'`
placeholder strings of the dict are kept verbatim. -/
def refTemplate (category refUUID : List ℕ) : ExchangeRow :=
  { sctg := some (chars "nan")
    commodity := chars "nan"
    transportMode := chars "nan"
    processID := chars "nan"
    processCategory := category
    processName := chars "nan"
    flowUUID := some refUUID
    flowName := some refFlowName
    amountFormula := some (chars "nan")
    context := chars "Technosphere flows / " ++ category
    isInput := false
    flowType := chars "PRODUCT_FLOW"
    reference := true
    defaultProvider := some (chars "")
    defaultProviderName := some (chars "")
    amount := 1
    unit := chars "kg"
    avoidedProduct := false
    exchangeDqi := chars "nan"
    location := chars "US"
    year := 2017
    countryCode := some (chars "USA") }

/-- The `df_olca` pipeline from the CSV read through the ISO merge
(lines 36-334), in source order: init, statics, flow/provider maps,
`assign_amount_formula`, shared fields, location merge. -/
def buildOlcaRows (codes : List (List ℕ × List ℕ)) (csv : List CsvRow)
    (uuid : List ℕ → List ℕ) (fm : List FlowMapEntry)
    (provs : List (List ℕ × List ℕ)) (params : List ParamRow)
    (pm : List (List ℕ × List ℕ)) (category dqi : List ℕ)
    (iso : List (List ℕ × List ℕ)) : List ExchangeRow :=
  ((assign_amount_formula
      (((csv.map (initRow codes)).map (assignStatics uuid)).map
        (assignFlowFields fm provs))
      params pm).map (assignShared category dqi)).flatMap (mergeIso iso)

/-- Line 367: `df_olca = pd.concat([df_olca, refFlow_df])` — the final
exchange set handed to `validate_exchange_data` and the per-process loop. -/
def finalExchangeSet (codes : List (List ℕ × List ℕ)) (csv : List CsvRow)
    (uuid : List ℕ → List ℕ) (fm : List FlowMapEntry)
    (provs : List (List ℕ × List ℕ)) (params : List ParamRow)
    (pm : List (List ℕ × List ℕ)) (category dqi : List ℕ)
    (iso : List (List ℕ × List ℕ)) (refUUID : List ℕ) : List ExchangeRow :=
  buildOlcaRows codes csv uuid fm provs params pm category dqi iso ++
    [refTemplate category refUUID]

/-- Lines 396-399 of the per-process loop: rows whose `FlowName` equals
the reference flow name get the donor's process name, and their
`exchange_dqi` is set to the empty string. -/
def updateRefRows (donorName : List ℕ) (rs : List ExchangeRow) :
    List ExchangeRow :=
  rs.map (fun r =>
    if r.flowName = some refFlowName then
      { r with processName := donorName, exchangeDqi := chars "" }
    else r)

/-- Lines 382-399 of the per-process loop, for one `pid`: filter the full
exchange set to the process, append a copy of the reference template bound
to `pid`, pick the first row that is not the reference flow as donor
(`iloc[0]`; `none` embeds the `IndexError` raised when no such row
exists), and rebind the reference rows' process name and dqi. -/
def processGroup (allRows : List ExchangeRow) (tmpl : ExchangeRow)
    (pid : List ℕ) : Option (List ExchangeRow) :=
  let g := (allRows.filter (fun r => r.processID == pid)) ++
    [{ tmpl with processID := pid }]
  match g.find? (fun r => r.flowName != some refFlowName) with
  | none => none
  | some donor => some (updateRefRows donor.processName g)

/-! ## Heap model for the metadata-template loop (lines 402-411)

Python dicts are mutable heap objects: without the `copy.deepcopy`, every
iteration of the loop would substitute placeholders into the one shared
`process_meta` object.  The model makes the aliasing explicit: a heap maps
addresses to metadata objects, `deepcopy` allocates a fresh address, and
the placeholder substitution writes only to that address. -/

/-- A metadata value: a string field (subject to placeholder substitution)
or any non-string value (left untouched by the loop, which guards on
`isinstance(value, str)`). -/
inductive MetaVal where
  | str (s : List ℕ)
  | nested (tag : ℕ)
deriving DecidableEq

/-- A metadata object: ordered key/value fields of one Python dict. -/
abbrev MetaObj := List (List ℕ × MetaVal)

/-- Line 411: `value.replace('[COMMODITY]', commodity).replace('[SCTG]', sctg)`
on string values; other values are untouched. -/
def substVal (commodity sctg : List ℕ) : MetaVal → MetaVal
  | .str s =>
    .str (replaceAll (chars "[SCTG]") sctg
      (replaceAll (chars "[COMMODITY]") commodity s))
  | .nested t => .nested t

/-- A heap of metadata objects. -/
abbrev Heap := List (ℕ × MetaObj)

/-- Read the object at address `a`. -/
def hget (h : Heap) (a : ℕ) : Option MetaObj := alookup a h

/-- An address unused by `h`: strictly larger than every allocated one. -/
def freshAddr (h : Heap) : ℕ :=
  (h.map Prod.fst).foldr (fun x y => Nat.max x y) 0 + 1

/-- Overwrite the object stored at address `a` (in-place dict mutation). -/
def hset (h : Heap) (a : ℕ) (o : MetaObj) : Heap :=
  h.map (fun p => if p.1 = a then (a, o) else p)

/-- The per-process metadata loop: for each `(commodity, sctg)` pair of a
process partition, `copy.deepcopy` the template at `tmplAddr` to a fresh
address, substitute the placeholders into that copy in place, and record
the copy's address.  Returns the final heap and the per-process
addresses. -/
def metaLoop (tmplAddr : ℕ) :
    Heap → List (List ℕ × List ℕ) → Heap × List ℕ
  | h, [] => (h, [])
  | h, cs :: rest =>
    let o := (hget h tmplAddr).getD []
    let a1 := freshAddr h
    let h1 : Heap := (a1, o) :: h
    let h2 := hset h1 a1 (o.map fun kv => (kv.1, substVal cs.1 cs.2 kv.2))
    let res := metaLoop tmplAddr h2 rest
    (res.1, a1 :: res.2)

/-! ## Sample data for concrete witnesses -/

/-- A CSV row with a recognized transport mode. -/
def sampleGoodRow : CsvRow :=
  ⟨chars "Coal", chars "rail", 500, 3 / 5, 300⟩

/-- A CSV row whose transport-mode label is not in `param_map`. -/
def sampleBadRow : CsvRow :=
  ⟨chars "Coal", chars "hyperloop", 100, 2 / 5, 40⟩

/-- A dataset whose second row has an unmapped mode. -/
def sampleBadCsv : List CsvRow := [sampleGoodRow, sampleBadRow]

/-- A well-formed two-mode dataset for one commodity. -/
def sampleCsv : List CsvRow :=
  [⟨chars "Coal", chars "rail", 500, 3 / 5, 300⟩,
   ⟨chars "Coal", chars "pipeline", 100, 2 / 5, 40⟩]

/-- A one-entry parameter table holding the derived `rail_kgkm` parameter
of the coal process. -/
def sampleParams : List ParamRow :=
  [⟨chars "Transport; average mix; coal", chars "rail_dist*rail_mass_frac",
    chars "FALSE", chars "rail_kgkm", none, chars ""⟩]

/-- An exchange row of the coal process shipped by rail, as it stands
right before `assign_amount_formula`. -/
def sampleXRow : ExchangeRow :=
  { sctg := some (chars "15")
    commodity := chars "Coal"
    transportMode := chars "rail"
    processID := chars "pid-coal"
    processCategory := chars ""
    processName := chars "Transport; average mix; coal"
    flowUUID := some (chars "f-uuid")
    flowName := some (chars "Transport, train, diesel powered")
    amountFormula := none
    context := chars ""
    isInput := true
    flowType := chars ""
    reference := false
    defaultProvider := none
    defaultProviderName := none
    amount := 300
    unit := chars "kg*km"
    avoidedProduct := false
    exchangeDqi := chars ""
    location := chars ""
    year := 0
    countryCode := none }

/-- A one-mode flow/provider mapping (covers rail only). -/
def sampleFlowMap : List FlowMapEntry :=
  [⟨chars "rail", chars "Transport, train, diesel powered",
    chars "rail-flow-uuid", chars "Rail provider"⟩]

/-- Provider-name to provider-id lookup matching `sampleFlowMap`. -/
def sampleProvs : List (List ℕ × List ℕ) :=
  [(chars "Rail provider", chars "rail-provider-uuid")]

/-- An exchange row whose transport mode is absent from `sampleFlowMap`. -/
def sampleUnmappedRow : ExchangeRow :=
  { sampleXRow with transportMode := chars "hyperloop" }

/-- A two-field metadata template with both placeholders and one
non-string value. -/
def sampleMetaTemplate : MetaObj :=
  [(chars "description", MetaVal.str
      (chars "Transport of [COMMODITY] (SCTG [SCTG]) to consumer")),
   (chars "sources", MetaVal.nested 7)]

/-- A heap holding only the template, at address 0. -/
def sampleHeap : Heap := [(0, sampleMetaTemplate)]

/-- Two process partitions: (commodity, SCTG code) pairs. -/
def samplePairs : List (List ℕ × List ℕ) :=
  [(chars "Coal", chars "15"), (chars "Natural Sands", chars "11")]

/-- A deterministic stand-in for the external `make_uuid`. -/
def sampleUuid (s : List ℕ) : List ℕ := chars "id-" ++ s

/-- The commodity-to-code table restricted to coal. -/
def sampleCodes : List (List ℕ × List ℕ) := [(chars "Coal", chars "15")]

/-- The process category from the flow-metadata YAML. -/
def sampleCategory : List ℕ := chars "48-49: Transportation and Warehousing"

/-- A formatted flow DQI score. -/
def sampleDqi : List ℕ := chars "(1;2;3;4;5)"

/-- A one-row ISO-3166 table (alpha-2 to alpha-3). -/
def sampleIso : List (List ℕ × List ℕ) := [(chars "US", chars "USA")]

/-- An input row of the coal process carrying a non-empty exchange DQI,
as the rows stand when the per-process loop runs. -/
def sampleDqiRow : ExchangeRow :=
  { sampleXRow with exchangeDqi := chars "(1;2;3;4;5)" }

/-- The reference-flow template instantiated with sample metadata. -/
def sampleTmpl : ExchangeRow :=
  refTemplate sampleCategory (chars "ref-uuid")

/-- The per-process exchange group assembled by the loop body for the
single-row coal process (used to exhibit the dqi divergence). -/
def c3group : List ExchangeRow :=
  (processGroup [sampleDqiRow] sampleTmpl (chars "pid-coal")).getD []

/-! ## Theorems -/

theorem beginsWith_length_le {p l : List ℕ} (h : beginsWith p l = true) :
    p.length ≤ l.length := by
  induction p generalizing l with
  | nil => simp
  | cons a ps ih =>
    cases l with
    | nil => simp [beginsWith] at h
    | cons c cs =>
      simp only [beginsWith, Bool.and_eq_true] at h
      simpa using ih h.2

theorem beginsWith_append_drop {p l : List ℕ} (h : beginsWith p l = true) :
    l = p ++ l.drop p.length := by
  induction p generalizing l with
  | nil => simp
  | cons a ps ih =>
    cases l with
    | nil => simp [beginsWith] at h
    | cons c cs =>
      simp only [beginsWith, Bool.and_eq_true, beq_iff_eq] at h
      simpa [h.1] using ih h.2

theorem replaceAllF_nil (pat rep : List ℕ) (n : ℕ) :
    replaceAllF pat rep n [] = [] := by
  cases n <;> rfl

theorem replaceAllF_length_le {pat rep : List ℕ}
    (hlen : rep.length ≤ pat.length) (n : ℕ) (s : List ℕ) :
    (replaceAllF pat rep n s).length ≤ s.length := by
  induction n generalizing s with
  | zero => simp [replaceAllF]
  | succ n ih =>
    cases s with
    | nil => simp [replaceAllF]
    | cons c cs =>
      by_cases hb : pat ≠ [] ∧ beginsWith pat (c :: cs) = true
      · have hple : pat.length ≤ (c :: cs).length := beginsWith_length_le hb.2
        have hdrop := ih ((c :: cs).drop pat.length)
        simp only [replaceAllF, if_pos hb, List.length_append]
        have hlen2 : ((c :: cs).drop pat.length).length =
            (c :: cs).length - pat.length := by simp
        omega
      · have := ih cs
        simp only [replaceAllF, if_neg hb, List.length_cons]
        omega

theorem replaceAllF_length_lt {pat rep : List ℕ}
    (hlen : rep.length < pat.length) (n : ℕ) (s : List ℕ)
    (hn : s.length ≤ n) (hd : hasSub pat s = true) :
    (replaceAllF pat rep n s).length < s.length := by
  induction n generalizing s with
  | zero =>
    interval_cases h : s.length
    · have : s = [] := List.length_eq_zero.mp h
      subst this
      simp [hasSub, List.isEmpty_iff] at hd
      subst hd
      simp at hlen
  | succ n ih =>
    cases s with
    | nil =>
      simp [hasSub, List.isEmpty_iff] at hd
      subst hd
      simp at hlen
    | cons c cs =>
      have hpne : pat ≠ [] := by
        intro h
        subst h
        simp at hlen
      by_cases hb : beginsWith pat (c :: cs) = true
      · have hple : pat.length ≤ (c :: cs).length := beginsWith_length_le hb
        have hdrop := replaceAllF_length_le (Nat.le_of_lt hlen) n
          ((c :: cs).drop pat.length)
        simp only [replaceAllF, if_pos (And.intro hpne hb), List.length_append]
        have hlen2 : ((c :: cs).drop pat.length).length =
            (c :: cs).length - pat.length := by simp
        omega
      · have hnot : ¬(pat ≠ [] ∧ beginsWith pat (c :: cs) = true) := by
          intro h
          exact hb h.2
        have hsub : hasSub pat cs = true := by
          simp only [hasSub, Bool.or_eq_true] at hd
          rcases hd with hd | hd
          · exact absurd hd hb
          · exact hd
        have hcs : cs.length ≤ n := by
          simp at hn
          omega
        have := ih cs hcs hsub
        simp only [replaceAllF, if_neg hnot, List.length_cons]
        omega

theorem replaceAll_length_lt {s : List ℕ} (hd : hasSub sp2 s = true) :
    (replaceAll sp2 sp1 s).length < s.length :=
  replaceAllF_length_lt (by simp [sp1, sp2, chars]) s.length s le_rfl hd

theorem collapseFuel_of_not {s : List ℕ} (h : hasSub sp2 s = false) (n : ℕ) :
    collapseFuel n s = s := by
  cases n with
  | zero => rfl
  | succ n => simp [collapseFuel, h]

theorem collapseFuel_no_double {n : ℕ} : ∀ {s : List ℕ}, s.length ≤ n →
    hasSub sp2 (collapseFuel n s) = false := by
  induction n with
  | zero =>
    intro s hs
    have : s = [] := List.length_eq_zero.mp (Nat.le_zero.mp hs)
    subst this
    simp [collapseFuel, hasSub, sp2, chars]
  | succ n ih =>
    intro s hs
    by_cases hd : hasSub sp2 s = true
    · have hlt := replaceAll_length_lt hd
      have : (replaceAll sp2 sp1 s).length ≤ n := by omega
      simpa [collapseFuel, hd] using ih this
    · simp only [Bool.not_eq_true] at hd
      simp [collapseFuel, hd]

theorem collapseFuel_fuel_irrel : ∀ (n : ℕ) {s : List ℕ} (m : ℕ),
    s.length ≤ n → s.length ≤ m → collapseFuel n s = collapseFuel m s := by
  intro n
  induction n with
  | zero =>
    intro s m hn _
    have : s = [] := List.length_eq_zero.mp (Nat.le_zero.mp hn)
    subst this
    rw [collapseFuel_of_not (by simp [hasSub, sp2, chars]),
      collapseFuel_of_not (by simp [hasSub, sp2, chars])]
  | succ n ih =>
    intro s m hn hm
    by_cases hd : hasSub sp2 s = true
    · have hlt := replaceAll_length_lt hd
      have hs1 : s ≠ [] := by
        intro h
        subst h
        simp [hasSub, sp2, chars] at hd
      cases m with
      | zero =>
        exfalso
        have : s = [] := List.length_eq_zero.mp (Nat.le_zero.mp hm)
        exact hs1 this
      | succ m =>
        simp only [collapseFuel, hd, if_pos]
        exact ih m (by omega) (by omega)
    · simp only [Bool.not_eq_true] at hd
      rw [collapseFuel_of_not hd, collapseFuel_of_not hd]

/-- C10: the whitespace-collapse loop of `_normalize_mode` terminates.  On
any string still containing a double space, one `replace("  ", " ")` pass
strictly decreases the length, so fuel `s.length` runs the loop to
completion: any larger fuel gives the same result, and the result — the
state in which the Python `while` loop exits — contains no double space. -/
theorem c10_collapse_terminates (s : List ℕ) (n : ℕ) (hn : s.length ≤ n)
    (hd : hasSub sp2 s = true) :
    (replaceAll sp2 sp1 s).length < s.length ∧
    collapseFuel n s = collapse s ∧
    hasSub sp2 (collapse s) = false :=
  ⟨replaceAll_length_lt hd,
   collapseFuel_fuel_irrel n s.length hn le_rfl,
   collapseFuel_no_double le_rfl⟩

/-- C10 witness: the loop on `"a  b"`, with surplus fuel. -/
theorem c10_collapse_terminates_witness :
    (replaceAll sp2 sp1 (chars "a  b")).length < (chars "a  b").length ∧
    collapseFuel 9 (chars "a  b") = collapse (chars "a  b") ∧
    hasSub sp2 (collapse (chars "a  b")) = false :=
  c10_collapse_terminates (chars "a  b") 9 (by decide) (by decide)

theorem replaceAllF_not_hasSub {pat rep : List ℕ} :
    ∀ (m : ℕ) {s : List ℕ}, hasSub pat s = false →
      replaceAllF pat rep m s = s := by
  intro m
  induction m with
  | zero => intro s _; rfl
  | succ m ih =>
    intro s h
    cases s with
    | nil => rfl
    | cons c cs =>
      simp only [hasSub, Bool.or_eq_false_iff] at h
      have hnot : ¬(pat ≠ [] ∧ beginsWith pat (c :: cs) = true) := by
        intro hx
        rw [h.1] at hx
        exact Bool.false_ne_true hx.2
      simp only [replaceAllF, if_neg hnot]
      rw [ih h.2]

theorem head?_dropWhile_false {p : ℕ → Bool} :
    ∀ {l : List ℕ} {c : ℕ}, (l.dropWhile p).head? = some c → p c = false := by
  intro l
  induction l with
  | nil => intro c h; simp [List.dropWhile] at h
  | cons a l ih =>
    intro c h
    by_cases hp : p a
    · rw [List.dropWhile_cons_of_pos hp] at h
      exact ih h
    · rw [List.dropWhile_cons_of_neg hp] at h
      simp only [List.head?_cons, Option.some.injEq] at h
      subst h
      exact Bool.not_eq_true _ ▸ (by simpa using hp)

theorem dropWhile_eq_self_of_head {p : ℕ → Bool} {l : List ℕ}
    (h : ∀ c, l.head? = some c → p c = false) : l.dropWhile p = l := by
  cases l with
  | nil => rfl
  | cons a l => exact List.dropWhile_cons_of_neg (by simp [h a rfl])

theorem stripPy_head_ok {s : List ℕ} {c : ℕ}
    (h : (stripPy s).head? = some c) : isPySpace c = false := by
  unfold stripPy at h
  rw [List.head?_reverse] at h
  have hne : ((s.dropWhile isPySpace).reverse.dropWhile isPySpace) ≠ [] := by
    intro hx
    rw [hx] at h
    simp at h
  have hdec := List.takeWhile_append_dropWhile isPySpace
    (s.dropWhile isPySpace).reverse
  have h2 : (s.dropWhile isPySpace).reverse.getLast? = some c := by
    rw [← hdec, List.getLast?_append_of_ne_nil _ hne]
    exact h
  rw [List.getLast?_reverse] at h2
  exact head?_dropWhile_false h2

theorem stripPy_last_ok {s : List ℕ} {c : ℕ}
    (h : (stripPy s).getLast? = some c) : isPySpace c = false := by
  unfold stripPy at h
  rw [List.getLast?_reverse] at h
  exact head?_dropWhile_false h

theorem stripPy_eq_self {s : List ℕ}
    (hh : ∀ c, s.head? = some c → isPySpace c = false)
    (hl : ∀ c, s.getLast? = some c → isPySpace c = false) :
    stripPy s = s := by
  unfold stripPy
  rw [dropWhile_eq_self_of_head hh]
  rw [dropWhile_eq_self_of_head (by simpa [List.head?_reverse] using hl)]
  exact List.reverse_reverse s

theorem isPySpace_lowerNat (c : ℕ) : isPySpace (lowerNat c) = isPySpace c := by
  by_cases h : 65 ≤ c ∧ c ≤ 90
  · have h1 : lowerNat c = c + 32 := if_pos h
    rw [h1]
    have h2 : isPySpace (c + 32) = false := by
      simp only [isPySpace, Bool.or_eq_false_iff, beq_eq_false_iff_ne, ne_eq]
      omega
    have h3 : isPySpace c = false := by
      simp only [isPySpace, Bool.or_eq_false_iff, beq_eq_false_iff_ne, ne_eq]
      omega
    rw [h2, h3]
  · have h1 : lowerNat c = c := if_neg h
    rw [h1]

theorem lowerNat_idem (c : ℕ) : lowerNat (lowerNat c) = lowerNat c := by
  by_cases h : 65 ≤ c ∧ c ≤ 90
  · have h1 : lowerNat c = c + 32 := if_pos h
    have h2 : lowerNat (c + 32) = c + 32 := if_neg (by omega)
    rw [h1, h2]
  · have h1 : lowerNat c = c := if_neg h
    rw [h1, h1]

theorem replaceAllF_sp_ne_nil :
    ∀ (n : ℕ) {s : List ℕ}, s ≠ [] → replaceAllF sp2 sp1 n s ≠ [] := by
  intro n
  cases n with
  | zero => intro s h; exact h
  | succ n =>
    intro s h
    cases s with
    | nil => exact absurd rfl h
    | cons c cs =>
      by_cases hb : sp2 ≠ [] ∧ beginsWith sp2 (c :: cs) = true
      · simp [replaceAllF, if_pos hb, sp1, chars]
      · simp [replaceAllF, if_neg hb]

theorem replaceAllF_sp_head? :
    ∀ (n : ℕ) (s : List ℕ), (replaceAllF sp2 sp1 n s).head? = s.head? := by
  intro n
  cases n with
  | zero => intro s; rfl
  | succ n =>
    intro s
    cases s with
    | nil => rfl
    | cons c cs =>
      by_cases hb : beginsWith sp2 (c :: cs) = true
      · have hc : c = 32 := by
          cases cs with
          | nil => simp [sp2, chars, beginsWith] at hb
          | cons d cs' =>
            simp only [sp2, chars, beginsWith] at hb
            simp at hb
            omega
        subst hc
        have hcond : sp2 ≠ [] ∧ beginsWith sp2 (32 :: cs) = true :=
          ⟨by simp [sp2, chars], hb⟩
        simp only [replaceAllF]
        rw [if_pos hcond]
        simp [sp1, chars]
      · have hcond : ¬(sp2 ≠ [] ∧ beginsWith sp2 (c :: cs) = true) := by
          intro hx
          exact hb hx.2
        simp only [replaceAllF]
        rw [if_neg hcond]
        simp

theorem getLast?_cons_ne {a : ℕ} {l : List ℕ} (h : l ≠ []) :
    (a :: l).getLast? = l.getLast? := by
  cases l with
  | nil => exact absurd rfl h
  | cons b l' => exact List.getLast?_cons_cons

theorem replaceAllF_sp_getLast? :
    ∀ (n : ℕ) {s : List ℕ}, s.length ≤ n →
      (replaceAllF sp2 sp1 n s).getLast? = s.getLast? := by
  intro n
  induction n with
  | zero =>
    intro s hs
    rfl
  | succ n ih =>
    intro s hs
    cases s with
    | nil => rfl
    | cons c cs =>
      by_cases hb : beginsWith sp2 (c :: cs) = true
      · cases cs with
        | nil => simp [sp2, chars, beginsWith] at hb
        | cons d cs' =>
          have hcd : c = 32 ∧ d = 32 := by
            simp only [sp2, chars, beginsWith] at hb
            simp at hb
            omega
          have hcond : sp2 ≠ [] ∧ beginsWith sp2 (c :: d :: cs') = true :=
            ⟨by simp [sp2, chars], hb⟩
          have hdrop : (c :: d :: cs').drop sp2.length = cs' := by
            simp [sp2, chars]
          simp only [replaceAllF]
          rw [if_pos hcond, hdrop]
          by_cases hnil : cs' = []
          · subst hnil
            simp [replaceAllF_nil, sp1, chars, hcd.2]
          · have hlen : cs'.length ≤ n := by
              simp at hs
              omega
            have hne : replaceAllF sp2 sp1 n cs' ≠ [] :=
              replaceAllF_sp_ne_nil n hnil
            rw [List.getLast?_append_of_ne_nil sp1 hne, ih hlen,
              List.getLast?_cons_cons, getLast?_cons_ne hnil]
      · have hcond : ¬(sp2 ≠ [] ∧ beginsWith sp2 (c :: cs) = true) := by
          intro hx
          exact hb hx.2
        simp only [replaceAllF]
        rw [if_neg hcond]
        by_cases hnil : cs = []
        · subst hnil
          simp [replaceAllF_nil]
        · have hlen : cs.length ≤ n := by
            simp at hs
            omega
          rw [getLast?_cons_ne (replaceAllF_sp_ne_nil n hnil), ih hlen,
            getLast?_cons_ne hnil]

theorem collapseFuel_head? :
    ∀ (n : ℕ) (s : List ℕ), (collapseFuel n s).head? = s.head? := by
  intro n
  induction n with
  | zero => intro s; rfl
  | succ n ih =>
    intro s
    by_cases hd : hasSub sp2 s = true
    · simp only [collapseFuel, if_pos hd]
      rw [ih, replaceAll, replaceAllF_sp_head?]
    · simp [collapseFuel, hd]

theorem collapseFuel_getLast? :
    ∀ (n : ℕ) (s : List ℕ), (collapseFuel n s).getLast? = s.getLast? := by
  intro n
  induction n with
  | zero => intro s; rfl
  | succ n ih =>
    intro s
    by_cases hd : hasSub sp2 s = true
    · simp only [collapseFuel, if_pos hd]
      rw [ih, replaceAll, replaceAllF_sp_getLast? _ le_rfl]
    · simp [collapseFuel, hd]

theorem mem_replaceAllF {pat rep : List ℕ} :
    ∀ {m : ℕ} {s : List ℕ} {c : ℕ}, c ∈ replaceAllF pat rep m s →
      c ∈ s ∨ c ∈ rep := by
  intro m
  induction m with
  | zero => intro s c h; exact Or.inl h
  | succ m ih =>
    intro s c h
    cases s with
    | nil => rw [replaceAllF_nil] at h; exact Or.inl h
    | cons a cs =>
      by_cases hb : pat ≠ [] ∧ beginsWith pat (a :: cs) = true
      · simp only [replaceAllF, if_pos hb, List.mem_append] at h
        rcases h with h | h
        · exact Or.inr h
        · rcases ih h with h | h
          · exact Or.inl (List.drop_subset _ _ h)
          · exact Or.inr h
      · simp only [replaceAllF, if_neg hb, List.mem_cons] at h
        rcases h with h | h
        · exact Or.inl (by simp [h])
        · rcases ih h with h | h
          · exact Or.inl (List.mem_cons_of_mem a h)
          · exact Or.inr h

theorem mem_collapseFuel :
    ∀ {n : ℕ} {s : List ℕ} {c : ℕ}, c ∈ collapseFuel n s → c ∈ s ∨ c = 32 := by
  intro n
  induction n with
  | zero => intro s c h; exact Or.inl h
  | succ n ih =>
    intro s c h
    by_cases hd : hasSub sp2 s = true
    · simp only [collapseFuel, if_pos hd] at h
      rcases ih h with h | h
      · rcases mem_replaceAllF h with h | h
        · exact Or.inl h
        · simp [sp1, chars] at h
          exact Or.inr h
      · exact Or.inr h
    · simp only [Bool.not_eq_true] at hd
      rw [collapseFuel_of_not hd] at h
      exact Or.inl h

theorem lowerList_eq_self {s : List ℕ} (h : ∀ c ∈ s, lowerNat c = c) :
    lowerList s = s := by
  unfold lowerList
  conv_rhs => rw [← List.map_id s]
  exact List.map_congr_left h

/-- C6 counterexample: `_normalize_mode` is not idempotent.  The
ampersand-artifact replacement runs before lowercasing, so the raw label
`"&AMP;AMP;AMP;AMP;"` normalizes to the lowercase artifact
`"&amp;amp;amp;amp;"`, which a second normalization collapses further to
`"&amp;amp;amp;"`. -/
theorem c6_normalize_not_idempotent :
    normalizeMode (normalizeMode (chars "&AMP;AMP;AMP;AMP;")) ≠
      normalizeMode (chars "&AMP;AMP;AMP;AMP;") := by decide

/-- C6 amended: `_normalize_mode` is idempotent on every string whose
normalized form does not contain the over-encoded ampersand artifact
`"&amp;amp;amp;amp;"` — in particular on all raw labels of the fixed mode
table.  (The unrestricted claim fails, see the counterexample.) -/
theorem c6_normalize_idempotent (s : List ℕ)
    (h : hasSub amp4 (normalizeMode s) = false) :
    normalizeMode (normalizeMode s) = normalizeMode s := by
  have step1 : replaceAll amp4 amp3 (normalizeMode s) = normalizeMode s :=
    replaceAllF_not_hasSub _ h
  have hh : ∀ c, (normalizeMode s).head? = some c → isPySpace c = false := by
    intro c hc
    unfold normalizeMode collapse at hc
    rw [collapseFuel_head?] at hc
    unfold lowerList at hc
    rw [List.head?_map] at hc
    cases hd : (stripPy (replaceAll amp4 amp3 s)).head? with
    | none => rw [hd] at hc; simp at hc
    | some d =>
      rw [hd] at hc
      have hcd : c = lowerNat d := by simpa using hc.symm
      rw [hcd, isPySpace_lowerNat]
      exact stripPy_head_ok hd
  have hl : ∀ c, (normalizeMode s).getLast? = some c → isPySpace c = false := by
    intro c hc
    unfold normalizeMode collapse at hc
    rw [collapseFuel_getLast?] at hc
    unfold lowerList at hc
    rw [List.getLast?_map] at hc
    cases hd : (stripPy (replaceAll amp4 amp3 s)).getLast? with
    | none => rw [hd] at hc; simp at hc
    | some d =>
      rw [hd] at hc
      have hcd : c = lowerNat d := by simpa using hc.symm
      rw [hcd, isPySpace_lowerNat]
      exact stripPy_last_ok hd
  have step2 : stripPy (normalizeMode s) = normalizeMode s :=
    stripPy_eq_self hh hl
  have step3 : lowerList (normalizeMode s) = normalizeMode s := by
    apply lowerList_eq_self
    intro c hc
    unfold normalizeMode collapse at hc
    rcases mem_collapseFuel hc with hc | hc
    · unfold lowerList at hc
      rcases List.mem_map.mp hc with ⟨d, _, hd⟩
      rw [← hd]
      exact lowerNat_idem d
    · subst hc
      exact if_neg (by omega)
  have step4 : hasSub sp2 (normalizeMode s) = false := by
    unfold normalizeMode collapse
    exact collapseFuel_no_double le_rfl
  have step5 : collapse (normalizeMode s) = normalizeMode s := by
    rw [collapse]
    exact collapseFuel_of_not step4 _
  conv_lhs => rw [normalizeMode, step1, step2, step3]
  exact step5

/-- C6 amended witness: idempotence at the concrete raw label
`"  Company-Owned  Truck "`. -/
theorem c6_normalize_idempotent_witness :
    normalizeMode (normalizeMode (chars "  Company-Owned  Truck ")) =
      normalizeMode (chars "  Company-Owned  Truck ") :=
  c6_normalize_idempotent (chars "  Company-Owned  Truck ") (by decide)

theorem buildParamRows_error {pm : List (List ℕ × List ℕ)} :
    ∀ (rows : List CsvRow) (base i : ℕ) (hi : i < rows.length),
      dlookup (normalizeMode (rows.get ⟨i, hi⟩).transportMode)
        (normParamMap pm) = none →
      (∀ j (hj : j < rows.length), j < i →
        (dlookup (normalizeMode (rows.get ⟨j, hj⟩).transportMode)
          (normParamMap pm)).isSome = true) →
      buildParamRows pm base rows =
        .error (modeErrMsg (rows.get ⟨i, hi⟩).transportMode (base + i)) := by
  intro rows
  induction rows with
  | nil =>
    intro base i hi
    exact absurd hi (by simp)
  | cons r rest ih =>
    intro base i hi hbad hfirst
    cases i with
    | zero =>
      simp only [List.get] at hbad
      simp [buildParamRows, hbad, List.get]
    | succ i =>
      have h0 : (dlookup (normalizeMode r.transportMode)
          (normParamMap pm)).isSome = true := by
        have := hfirst 0 (by simp) (Nat.succ_pos i)
        simpa [List.get] using this
      rcases Option.isSome_iff_exists.mp h0 with ⟨k, hk⟩
      have hi2 : i < rest.length := by simpa using hi
      have hbad2 : dlookup (normalizeMode (rest.get ⟨i, hi2⟩).transportMode)
          (normParamMap pm) = none := by
        simpa [List.get] using hbad
      have hfirst2 : ∀ j (hj : j < rest.length), j < i →
          (dlookup (normalizeMode (rest.get ⟨j, hj⟩).transportMode)
            (normParamMap pm)).isSome = true := by
        intro j hj hlt
        have := hfirst (j + 1) (by simpa using hj) (by omega)
        simpa [List.get] using this
      have hrec := ih (base + 1) i hi2 hbad2 hfirst2
      simp only [buildParamRows, hk, hrec, List.get]
      have : base + 1 + i = base + (i + 1) := by omega
      rw [this]

/-- C4: an unmapped transport-mode label aborts the pipeline before the
parameter CSV is written.  If row `i` is the first row whose normalized
mode is not a key of `norm_param_map`, the parameter stage stops with the
`KeyError` message naming the raw label and the row index, and never
reaches its file write (it returns no `.ok` result, whose second component
lists the files written). -/
theorem c4_unmapped_mode_aborts (rows : List CsvRow) (i : ℕ)
    (hi : i < rows.length)
    (hbad : dlookup (normalizeMode (rows.get ⟨i, hi⟩).transportMode)
      (normParamMap paramMap) = none)
    (hfirst : ∀ j (hj : j < rows.length), j < i →
      (dlookup (normalizeMode (rows.get ⟨j, hj⟩).transportMode)
        (normParamMap paramMap)).isSome = true) :
    runParamsStage rows paramMap =
      .error (modeErrMsg (rows.get ⟨i, hi⟩).transportMode i) ∧
    ∀ res, runParamsStage rows paramMap ≠ .ok res := by
  have h := buildParamRows_error rows 0 i hi hbad hfirst
  rw [Nat.zero_add] at h
  constructor
  · simp [runParamsStage, build_df_params, h]
  · intro res
    simp [runParamsStage, build_df_params, h]

/-- C4 witness: the dataset whose second row carries the unknown label
`"hyperloop"` aborts with the message naming that label and row 1. -/
theorem c4_unmapped_mode_aborts_witness :
    runParamsStage sampleBadCsv paramMap =
      .error (modeErrMsg (chars "hyperloop") 1) := by
  have h := c4_unmapped_mode_aborts sampleBadCsv 1 (by decide) (by decide)
    (by
      intro j hj hlt
      have hj0 : j = 0 := by omega
      subst hj0
      exact (by decide :
        (dlookup (normalizeMode sampleGoodRow.transportMode)
          (normParamMap paramMap)).isSome = true))
  exact h.1

theorem alookup_eq_none {κ α : Type} [DecidableEq κ] {k : κ} :
    ∀ {m : List (κ × α)}, (∀ e ∈ m, e.1 ≠ k) → alookup k m = none := by
  intro m
  induction m with
  | nil => intro _; rfl
  | cons e rest ih =>
    intro h
    have hne : k ≠ e.1 := fun hx => h e (by simp) hx.symm
    simp only [alookup]
    rw [if_neg hne]
    exact ih (fun x hx => h x (List.mem_cons_of_mem e hx))

theorem alookup_mem {κ α : Type} [DecidableEq κ] {k : κ} {v : α} :
    ∀ {m : List (κ × α)}, alookup k m = some v → (k, v) ∈ m := by
  intro m
  induction m with
  | nil => intro h; simp [alookup] at h
  | cons e rest ih =>
    intro h
    simp only [alookup] at h
    by_cases hk : k = e.1
    · rw [if_pos hk] at h
      cases e with
      | mk a b =>
        have hk2 : k = a := hk
        have hv2 : b = v := by simpa using h
        subst hk2
        subst hv2
        exact List.mem_cons_self _ _
    · rw [if_neg hk] at h
      exact List.mem_cons_of_mem e (ih h)

theorem alookup_isSome_of_mem {κ α : Type} [DecidableEq κ] {k : κ} {v : α} :
    ∀ {m : List (κ × α)}, (k, v) ∈ m → ∃ w, alookup k m = some w := by
  intro m
  induction m with
  | nil => intro h; simp at h
  | cons e rest ih =>
    intro h
    by_cases hk : k = e.1
    · exact ⟨e.2, by simp [alookup, if_pos hk]⟩
    · rcases List.mem_cons.mp h with h | h
      · exact absurd (congrArg Prod.fst h) hk
      · rcases ih h with ⟨w, hw⟩
        exact ⟨w, by simp [alookup, if_neg hk, hw]⟩

theorem beginsWith_append (p t : List ℕ) : beginsWith p (p ++ t) = true := by
  induction p with
  | nil => rfl
  | cons a p ih => simp [beginsWith, ih]

theorem stripKgkm_append {s : List ℕ} (h : endsKgkm s = true) :
    stripKgkm s ++ kgkmSuffix = s := by
  have hd := beginsWith_append_drop (p := kgkmSuffix.reverse) (l := s.reverse) h
  have hs0 : s = (s.reverse.drop kgkmSuffix.reverse.length).reverse ++
      kgkmSuffix := by
    conv_lhs => rw [← List.reverse_reverse s, hd]
    rw [List.reverse_append, List.reverse_reverse]
  obtain ⟨X, hs⟩ : ∃ X, s = X ++ kgkmSuffix := ⟨_, hs0⟩
  unfold stripKgkm
  rw [if_pos h]
  have hlen2 : s.length - kgkmSuffix.length = X.length := by
    rw [hs, List.length_append]
    omega
  rw [hlen2]
  conv_lhs => rw [hs]
  rw [List.take_left]
  exact hs.symm

theorem endsKgkm_append (t : List ℕ) : endsKgkm (t ++ kgkmSuffix) = true := by
  unfold endsKgkm
  rw [List.reverse_append]
  exact beginsWith_append _ _

theorem kgkmLookup_none {params : List ParamRow} {P t : List ℕ}
    (h : ∀ p ∈ params, ¬(endsKgkm p.name = true ∧ p.processName = P ∧
      stripKgkm p.name = t)) :
    kgkmLookup params (P, t) = none := by
  unfold kgkmLookup dlookup
  apply alookup_eq_none
  intro e he
  rw [List.mem_reverse] at he
  rcases List.mem_map.mp he with ⟨p, hpmem, hpe⟩
  rcases List.mem_filter.mp hpmem with ⟨hp, hends⟩
  intro hkey
  rw [← hpe] at hkey
  simp only [Prod.mk.injEq] at hkey
  exact h p hp ⟨hends, hkey.1, hkey.2⟩

theorem kgkmLookup_some_eq {params : List ParamRow} {P t v : List ℕ}
    (h : kgkmLookup params (P, t) = some v) :
    v = t ++ kgkmSuffix ∧ ∃ p ∈ params, p.name = v ∧ p.processName = P := by
  have hmem := alookup_mem h
  rw [List.mem_reverse] at hmem
  rcases List.mem_map.mp hmem with ⟨p, hpmem, hpe⟩
  rcases List.mem_filter.mp hpmem with ⟨hp, hends⟩
  simp only [Prod.mk.injEq] at hpe
  rcases hpe with ⟨⟨hP, ht⟩, hv⟩
  constructor
  · rw [← hv, ← ht]
    exact (stripKgkm_append hends).symm
  · exact ⟨p, hp, hv, hP⟩

theorem kgkmLookup_isSome {params : List ParamRow} {P t : List ℕ}
    (h : ∃ p ∈ params, endsKgkm p.name = true ∧ p.processName = P ∧
      stripKgkm p.name = t) :
    ∃ v, kgkmLookup params (P, t) = some v := by
  rcases h with ⟨p, hp, hends, hP, ht⟩
  apply alookup_isSome_of_mem (v := p.name)
  rw [List.mem_reverse]
  apply List.mem_map.mpr
  refine ⟨p, List.mem_filter.mpr ⟨hp, hends⟩, ?_⟩
  rw [hP, ht]

/-- C7: formula assignment is total and tolerant.  For a row whose mode
normalizes to token `t`: if no `*_kgkm` parameter of the row's process
matches, `amountFormula` stays unset (`none`) while the literal amount
(and every other field) is untouched; if one matches, `amountFormula`
becomes exactly that derived parameter's name `t ++ "_kgkm"`. -/
theorem c7_formula_assignment (params : List ParamRow)
    (pm : List (List ℕ × List ℕ)) (r : ExchangeRow) (t : List ℕ)
    (ht : dlookup (normMode2 r.transportMode) (modeToToken pm) = some t) :
    ((assignRow params pm r).amount = r.amount ∧
     (assignRow params pm r).reference = r.reference ∧
     (assignRow params pm r).unit = r.unit ∧
     (assignRow params pm r).processName = r.processName ∧
     (assignRow params pm r).transportMode = r.transportMode) ∧
    ((∀ p ∈ params, ¬(endsKgkm p.name = true ∧
        p.processName = r.processName ∧ stripKgkm p.name = t)) →
      (assignRow params pm r).amountFormula = none) ∧
    ((∃ p ∈ params, endsKgkm p.name = true ∧
        p.processName = r.processName ∧ stripKgkm p.name = t) →
      (assignRow params pm r).amountFormula = some (t ++ kgkmSuffix) ∧
      ∃ p ∈ params, p.name = t ++ kgkmSuffix ∧
        p.processName = r.processName) := by
  refine ⟨⟨rfl, rfl, rfl, rfl, rfl⟩, ?_, ?_⟩
  · intro h
    simp only [assignRow, ht]
    exact kgkmLookup_none h
  · intro h
    rcases kgkmLookup_isSome h with ⟨v, hv⟩
    rcases kgkmLookup_some_eq hv with ⟨hveq, p, hp, hname, hP⟩
    subst hveq
    constructor
    · simp only [assignRow, ht]
      exact hv
    · exact ⟨p, hp, hname, hP⟩

/-- C7 witness: the coal/rail row picks up formula `rail_kgkm` from the
sample parameter table, keeping its literal amount. -/
theorem c7_formula_assignment_witness :
    (assignRow sampleParams paramMap sampleXRow).amountFormula =
      some (chars "rail_kgkm") ∧
    (assignRow sampleParams paramMap sampleXRow).amount = sampleXRow.amount := by
  have h := c7_formula_assignment sampleParams paramMap sampleXRow
    (chars "rail") (by decide)
  refine ⟨?_, h.1.1⟩
  have hmatch : ∃ p ∈ sampleParams, endsKgkm p.name = true ∧
      p.processName = sampleXRow.processName ∧
      stripKgkm p.name = chars "rail" := by decide
  exact (h.2.2 hmatch).1

/-- C5 counterexample: the flow/provider mapping step does not fail on a
mode it does not know.  On the concrete row with mode `"hyperloop"`,
absent from the sample mapping, the step completes normally and leaves
the flow name, flow identifier and provider fields unset, keeping the
row's amount — refuting the claim that the mapper independently validates
completeness and raises an error. -/
theorem c5_mapping_no_error_counterexample :
    (assignFlowFields sampleFlowMap sampleProvs sampleUnmappedRow).flowName
      = none ∧
    (assignFlowFields sampleFlowMap sampleProvs sampleUnmappedRow).flowUUID
      = none ∧
    (assignFlowFields sampleFlowMap sampleProvs
      sampleUnmappedRow).defaultProviderName = none ∧
    (assignFlowFields sampleFlowMap sampleProvs
      sampleUnmappedRow).defaultProvider = none ∧
    (assignFlowFields sampleFlowMap sampleProvs sampleUnmappedRow).amount
      = sampleUnmappedRow.amount := by decide

/-- C5 amended: a transport mode absent from the flow/provider mapping is
handled silently: the `.map` lookups of the mapping step raise nothing
and leave `FlowName`, `FlowUUID`, `default_provider_name` and
`default_provider` unset (`NaN`) on every such row, all other fields
untouched; no completeness validation happens in this step. -/
theorem c5_unmapped_flow_mapping_silent (fm : List FlowMapEntry)
    (provs : List (List ℕ × List ℕ)) (r : ExchangeRow)
    (h : ∀ e ∈ fm, e.mode ≠ r.transportMode) :
    assignFlowFields fm provs r =
      { r with
        flowName := none
        flowUUID := none
        defaultProviderName := none
        defaultProvider := none } := by
  have hnone : dlookup r.transportMode (fm.map fun e => (e.mode, e)) = none := by
    apply alookup_eq_none
    intro e he
    rw [List.mem_reverse] at he
    rcases List.mem_map.mp he with ⟨x, hx, hxe⟩
    rw [← hxe]
    exact h x hx
  simp [assignFlowFields, hnone]

/-- C5 amended witness: the silent fallback at the concrete
`"hyperloop"` row. -/
theorem c5_unmapped_flow_mapping_silent_witness :
    assignFlowFields sampleFlowMap sampleProvs sampleUnmappedRow =
      { sampleUnmappedRow with
        flowName := none
        flowUUID := none
        defaultProviderName := none
        defaultProvider := none } :=
  c5_unmapped_flow_mapping_silent sampleFlowMap sampleProvs
    sampleUnmappedRow (by decide)

theorem le_foldr_max : ∀ {l : List ℕ} {a : ℕ}, a ∈ l →
    a ≤ l.foldr (fun x y => Nat.max x y) 0 := by
  intro l
  induction l with
  | nil => intro a h; simp at h
  | cons b l ih =>
    intro a h
    rcases List.mem_cons.mp h with h | h
    · subst h
      exact Nat.le_max_left _ _
    · exact Nat.le_trans (ih h) (Nat.le_max_right _ _)

theorem lt_freshAddr {h : Heap} {a : ℕ} {o : MetaObj}
    (hm : hget h a = some o) : a < freshAddr h := by
  have hmem : (a, o) ∈ h := alookup_mem hm
  have : a ∈ h.map Prod.fst := List.mem_map.mpr ⟨(a, o), hmem, rfl⟩
  have := le_foldr_max this
  unfold freshAddr
  omega

theorem alookup_cons {κ α : Type} [DecidableEq κ] (k : κ) (e : κ × α)
    (m : List (κ × α)) :
    alookup k (e :: m) = if k = e.1 then some e.2 else alookup k m := by
  cases e
  rfl

theorem hget_hset_ne {h : Heap} {a b : ℕ} {o : MetaObj} (hne : b ≠ a) :
    hget (hset h a o) b = hget h b := by
  induction h with
  | nil => rfl
  | cons p rest ih =>
    simp only [hget] at ih ⊢
    by_cases hp : p.1 = a
    · have hstep : hset (p :: rest) a o = (a, o) :: hset rest a o := by
        show (if p.1 = a then (a, o) else p) :: hset rest a o = _
        rw [if_pos hp]
      rw [hstep, alookup_cons, alookup_cons]
      rw [if_neg (show b ≠ (a, o).1 from hne),
        if_neg (show b ≠ p.1 from by rw [hp]; exact hne)]
      exact ih
    · have hstep : hset (p :: rest) a o = p :: hset rest a o := by
        show (if p.1 = a then (a, o) else p) :: hset rest a o = _
        rw [if_neg hp]
      rw [hstep, alookup_cons, alookup_cons]
      by_cases hb : b = p.1
      · rw [if_pos hb, if_pos hb]
      · rw [if_neg hb, if_neg hb]
        exact ih

theorem hget_hset_eq {h : Heap} {a : ℕ} {o o0 : MetaObj}
    (hdom : hget h a = some o0) : hget (hset h a o) a = some o := by
  induction h with
  | nil => simp [hget, alookup] at hdom
  | cons p rest ih =>
    simp only [hget] at ih hdom ⊢
    by_cases hp : p.1 = a
    · have hstep : hset (p :: rest) a o = (a, o) :: hset rest a o := by
        show (if p.1 = a then (a, o) else p) :: hset rest a o = _
        rw [if_pos hp]
      rw [hstep, alookup_cons]
      rw [if_pos (show a = (a, o).1 from rfl)]
    · have hstep : hset (p :: rest) a o = p :: hset rest a o := by
        show (if p.1 = a then (a, o) else p) :: hset rest a o = _
        rw [if_neg hp]
      rw [alookup_cons, if_neg (fun hx => hp hx.symm)] at hdom
      rw [hstep, alookup_cons, if_neg (fun hx : a = p.1 => hp hx.symm)]
      exact ih hdom

theorem metaLoop_preserves :
    ∀ (pairs : List (List ℕ × List ℕ)) (h : Heap) (a b : ℕ) (o : MetaObj),
      hget h b = some o → hget (metaLoop a h pairs).1 b = some o := by
  intro pairs
  induction pairs with
  | nil => intro h a b o hb; exact hb
  | cons cs rest ih =>
    intro h a b o hb
    have hblt : b < freshAddr h := lt_freshAddr hb
    have hbne : b ≠ freshAddr h := by omega
    have h1 : hget ((freshAddr h, (hget h a).getD []) :: h) b = some o := by
      simp only [hget]
      rw [alookup_cons,
        if_neg (show b ≠ (freshAddr h, (hget h a).getD []).1 from hbne)]
      exact hb
    have h2 : hget (hset ((freshAddr h, (hget h a).getD []) :: h) (freshAddr h)
        (((hget h a).getD []).map fun kv =>
          (kv.1, substVal cs.1 cs.2 kv.2))) b = some o := by
      rw [hget_hset_ne hbne]
      exact h1
    simp only [metaLoop]
    exact ih _ a b o h2

/-- C9: the metadata template is isolated.  If the template object `m`
lives at address `a`, then after the whole per-process loop the heap still
holds exactly `m` at `a` (no substitution leaked into the shared
template), one fresh copy was allocated per partition, and the `i`-th
partition's object is the substitution of partition `i`'s commodity and
code into the pristine template — never into another partition's copy. -/
theorem c9_template_isolation (h : Heap) (a : ℕ) (m : MetaObj)
    (pairs : List (List ℕ × List ℕ)) (hm : hget h a = some m) :
    hget (metaLoop a h pairs).1 a = some m ∧
    (metaLoop a h pairs).2.length = pairs.length ∧
    ∀ i (hi : i < pairs.length) (hi2 : i < (metaLoop a h pairs).2.length),
      hget (metaLoop a h pairs).1 ((metaLoop a h pairs).2.get ⟨i, hi2⟩) =
        some (m.map fun kv =>
          (kv.1, substVal (pairs.get ⟨i, hi⟩).1 (pairs.get ⟨i, hi⟩).2 kv.2)) := by
  induction pairs generalizing h with
  | nil =>
    refine ⟨hm, rfl, ?_⟩
    intro i hi
    exact absurd hi (by simp)
  | cons cs rest ih =>
    have halt : a < freshAddr h := lt_freshAddr hm
    have hane : a ≠ freshAddr h := by omega
    have hgo : (hget h a).getD [] = m := by rw [hm]; rfl
    have h1 : hget ((freshAddr h, m) :: h) a = some m := by
      simp only [hget]
      rw [alookup_cons, if_neg (show a ≠ (freshAddr h, m).1 from hane)]
      exact hm
    have hfresh1 : hget ((freshAddr h, m) :: h) (freshAddr h) = some m := by
      simp only [hget]
      rw [alookup_cons,
        if_pos (show freshAddr h = (freshAddr h, m).1 from rfl)]
    have h2 : hget (hset ((freshAddr h, m) :: h) (freshAddr h)
        (m.map fun kv => (kv.1, substVal cs.1 cs.2 kv.2))) a = some m := by
      rw [hget_hset_ne hane]
      exact h1
    have hfresh2 : hget (hset ((freshAddr h, m) :: h) (freshAddr h)
        (m.map fun kv => (kv.1, substVal cs.1 cs.2 kv.2))) (freshAddr h) =
        some (m.map fun kv => (kv.1, substVal cs.1 cs.2 kv.2)) :=
      hget_hset_eq hfresh1
    have hrec := ih _ h2
    simp only [metaLoop]
    rw [hgo]
    refine ⟨hrec.1, ?_, ?_⟩
    · simp only [List.length_cons]
      rw [hrec.2.1]
    · intro i hi hi2
      cases i with
      | zero =>
        simp only [List.get]
        exact metaLoop_preserves rest _ a (freshAddr h) _ hfresh2
      | succ j =>
        have hj : j < rest.length := by simpa using hi
        have hj2 : j < (metaLoop a (hset ((freshAddr h, m) :: h) (freshAddr h)
            (m.map fun kv => (kv.1, substVal cs.1 cs.2 kv.2))) rest).2.length := by
          rw [hrec.2.1]
          exact hj
        have hx := hrec.2.2 j hj hj2
        simp only [List.get]
        exact hx

/-- C9 witness: two partitions over the sample template at address 0. -/
theorem c9_template_isolation_witness :
    hget (metaLoop 0 sampleHeap samplePairs).1 0 = some sampleMetaTemplate ∧
    (metaLoop 0 sampleHeap samplePairs).2.length = samplePairs.length := by
  have h := c9_template_isolation sampleHeap 0 sampleMetaTemplate samplePairs
    (by decide)
  exact ⟨h.1, h.2.1⟩

theorem mem_mergeIso {iso : List (List ℕ × List ℕ)} {r0 r : ExchangeRow}
    (hr : r ∈ mergeIso iso r0) : ∃ cc, r = { r0 with countryCode := cc } := by
  unfold mergeIso at hr
  cases hfil : iso.filter (fun e => e.1 == r0.location) with
  | nil =>
    rw [hfil] at hr
    simp only [List.mem_singleton] at hr
    exact ⟨none, hr⟩
  | cons e es =>
    rw [hfil] at hr
    rcases List.mem_map.mp hr with ⟨x, _, hx⟩
    exact ⟨some x.2, hx.symm⟩

theorem mem_buildOlcaRows {codes : List (List ℕ × List ℕ)} {csv : List CsvRow}
    {uuid : List ℕ → List ℕ} {fm : List FlowMapEntry}
    {provs : List (List ℕ × List ℕ)} {params : List ParamRow}
    {pm : List (List ℕ × List ℕ)} {category dqi : List ℕ}
    {iso : List (List ℕ × List ℕ)} {r : ExchangeRow}
    (hr : r ∈ buildOlcaRows codes csv uuid fm provs params pm category dqi iso) :
    r.reference = false ∧ r.isInput = true ∧
    (r.flowName = none ∨ ∃ e ∈ fm, r.flowName = some e.name) ∧
    (∃ c ∈ csv, r.processID =
      uuid (chars "Transport; average mix; " ++ lowerList c.commodity)) := by
  unfold buildOlcaRows at hr
  rcases List.mem_flatMap.mp hr with ⟨r0, hr0, hrm⟩
  rcases mem_mergeIso hrm with ⟨cc, hcc⟩
  rcases List.mem_map.mp hr0 with ⟨r1, hr1, hsh⟩
  unfold assign_amount_formula at hr1
  rcases List.mem_map.mp hr1 with ⟨r2, hr2, haf⟩
  rcases List.mem_map.mp hr2 with ⟨r3, hr3, hff⟩
  rcases List.mem_map.mp hr3 with ⟨r4, hr4, hst⟩
  rcases List.mem_map.mp hr4 with ⟨c, hc, hinit⟩
  subst hcc
  subst hsh
  subst haf
  subst hff
  subst hst
  subst hinit
  refine ⟨rfl, rfl, ?_, c, hc, rfl⟩
  show (Option.map (fun e => e.name)
    (dlookup (initRow codes c).transportMode
      (fm.map fun e => (e.mode, e)))) = none ∨
    ∃ e ∈ fm, (Option.map (fun e => e.name)
      (dlookup (initRow codes c).transportMode
        (fm.map fun e => (e.mode, e)))) = some e.name
  cases hdl : dlookup (initRow codes c).transportMode
      (fm.map fun e => (e.mode, e)) with
  | none => exact Or.inl rfl
  | some e =>
    right
    have hmem := alookup_mem hdl
    rw [List.mem_reverse] at hmem
    rcases List.mem_map.mp hmem with ⟨x, hx, hxe⟩
    have hxeq : x = e := congrArg Prod.snd hxe
    refine ⟨x, hx, ?_⟩
    rw [hxeq]
    rfl

theorem filter_key_length_le_one {iso : List (List ℕ × List ℕ)}
    (h : (iso.map Prod.fst).Nodup) (k : List ℕ) :
    (iso.filter fun e => e.1 == k).length ≤ 1 := by
  induction iso with
  | nil => simp
  | cons e rest ih =>
    simp only [List.map_cons, List.nodup_cons] at h
    by_cases hek : (e.1 == k) = true
    · have hk : e.1 = k := eq_of_beq hek
      have hrest : rest.filter (fun x => x.1 == k) = [] := by
        apply List.filter_eq_nil_iff.mpr
        intro x hx hxk
        have hxk2 : x.1 = k := eq_of_beq hxk
        exact h.1 (List.mem_map.mpr ⟨x, hx, by rw [hxk2, hk]⟩)
      rw [List.filter_cons, if_pos hek, hrest]
      simp
    · rw [List.filter_cons, if_neg hek]
      exact ih h.2

theorem mergeIso_length {iso : List (List ℕ × List ℕ)}
    (h : (iso.map Prod.fst).Nodup) (r : ExchangeRow) :
    (mergeIso iso r).length = 1 := by
  unfold mergeIso
  cases hfil : iso.filter (fun e => e.1 == r.location) with
  | nil => rfl
  | cons e es =>
    have hle := filter_key_length_le_one h r.location
    rw [hfil] at hle
    have hes : es = [] := by
      cases es with
      | nil => rfl
      | cons x xs => simp at hle
    subst hes
    simp

theorem length_flatMap_one {α β : Type} (f : α → List β) (l : List α)
    (h : ∀ a ∈ l, (f a).length = 1) : (l.flatMap f).length = l.length := by
  induction l with
  | nil => rfl
  | cons a rest ih =>
    rw [List.flatMap_cons, List.length_append, h a (by simp),
      ih (fun x hx => h x (List.mem_cons_of_mem a hx))]
    simp [Nat.add_comm]

/-- C8: no rows dropped or duplicated.  Provided the ISO table has no
duplicate alpha-2 key (true of ISO 3166), the left merge keeps exactly one
copy of each row, every pipeline stage before it is a per-row map, and the
only appended row is the reference template — so the final exchange set
has exactly one non-reference row per input CSV row. -/
theorem c8_row_count (codes : List (List ℕ × List ℕ)) (csv : List CsvRow)
    (uuid : List ℕ → List ℕ) (fm : List FlowMapEntry)
    (provs : List (List ℕ × List ℕ)) (params : List ParamRow)
    (pm : List (List ℕ × List ℕ)) (category dqi : List ℕ)
    (iso : List (List ℕ × List ℕ)) (refUUID : List ℕ)
    (hiso : (iso.map Prod.fst).Nodup) :
    ((finalExchangeSet codes csv uuid fm provs params pm category dqi iso
      refUUID).filter fun r => !r.reference).length = csv.length := by
  unfold finalExchangeSet
  rw [List.filter_append]
  have ht : ([refTemplate category refUUID].filter fun r => !r.reference)
      = [] := rfl
  rw [ht, List.append_nil]
  have hB : ((buildOlcaRows codes csv uuid fm provs params pm category dqi
      iso).filter fun r => !r.reference) =
      buildOlcaRows codes csv uuid fm provs params pm category dqi iso := by
    apply List.filter_eq_self.mpr
    intro a ha
    rw [(mem_buildOlcaRows ha).1]
    rfl
  rw [hB]
  unfold buildOlcaRows
  rw [length_flatMap_one _ _ (fun a _ => mergeIso_length hiso a)]
  unfold assign_amount_formula
  simp

/-- C8 witness: the two-row sample dataset yields exactly two
non-reference rows. -/
theorem c8_row_count_witness :
    ((finalExchangeSet sampleCodes sampleCsv sampleUuid sampleFlowMap
      sampleProvs sampleParams paramMap sampleCategory sampleDqi sampleIso
      (chars "ref-uuid")).filter fun r => !r.reference).length =
      sampleCsv.length :=
  c8_row_count sampleCodes sampleCsv sampleUuid sampleFlowMap sampleProvs
    sampleParams paramMap sampleCategory sampleDqi sampleIso
    (chars "ref-uuid") (by decide)

/-- C3 (code-bug demonstration): the per-process loop copies the donor
row's process name onto the reference row but then sets the reference
row's `exchange_dqi` to the empty string (line 399), not to the donor's
dqi — although the loop's own comments say the donor provides "current
process name and dqi".  Evaluated on a one-row coal process whose input
row carries dqi `"(1;2;3;4;5)"`. -/
theorem c3_ref_dqi_blanked :
    (processGroup [sampleDqiRow] sampleTmpl (chars "pid-coal")).isSome
      = true ∧
    (c3group.filter fun r => r.reference).length = 1 ∧
    ∀ r ∈ c3group, r.reference = true →
      r.processName = sampleDqiRow.processName ∧
      r.exchangeDqi = chars "" ∧
      r.exchangeDqi ≠ sampleDqiRow.exchangeDqi := by decide

theorem mem_updateRefRows {dn : List ℕ} {rs : List ExchangeRow}
    {r : ExchangeRow} (h : r ∈ updateRefRows dn rs) :
    ∃ r0 ∈ rs, r.reference = r0.reference ∧ r.isInput = r0.isInput ∧
      r.amount = r0.amount ∧ r.unit = r0.unit := by
  unfold updateRefRows at h
  rcases List.mem_map.mp h with ⟨r0, h0, hr⟩
  subst hr
  refine ⟨r0, h0, ?_, ?_, ?_, ?_⟩ <;>
    by_cases hc : r0.flowName = some refFlowName <;> simp [hc]

theorem filter_updateRefRows (dn : List ℕ) (l : List ExchangeRow)
    (p : ExchangeRow → Bool)
    (hp : ∀ r : ExchangeRow, p (if r.flowName = some refFlowName then
      { r with processName := dn, exchangeDqi := chars "" } else r) = p r) :
    ((updateRefRows dn l).filter p).length = (l.filter p).length := by
  unfold updateRefRows
  rw [List.filter_map, List.length_map]
  exact congrArg List.length (List.filter_congr (fun a _ => hp a))

/-- C2: each per-process group handed to `build_process_dict` holds
exactly one reference row — the rebound template — which is an output
(`IsInput = false`) of exactly 1 kg; all rows coming from the CSV keep
`reference = false`.  Hypotheses: the external uuid generator never emits
the literal placeholder string `'nan'` (so the pid filter excludes the
floating template), and no mapped flow shares the reference flow's name
(so the donor pick works and inputs are not rebound). -/
theorem c2_one_reference_row (codes : List (List ℕ × List ℕ))
    (csv : List CsvRow) (uuid : List ℕ → List ℕ) (fm : List FlowMapEntry)
    (provs : List (List ℕ × List ℕ)) (params : List ParamRow)
    (pm : List (List ℕ × List ℕ)) (category dqi : List ℕ)
    (iso : List (List ℕ × List ℕ)) (refUUID pid : List ℕ)
    (hu : ∀ s, uuid s ≠ chars "nan")
    (hf : ∀ e ∈ fm, e.name ≠ refFlowName)
    (hpid : pid ∈ (buildOlcaRows codes csv uuid fm provs params pm category
      dqi iso).map (fun r => r.processID)) :
    ∃ g, processGroup (finalExchangeSet codes csv uuid fm provs params pm
        category dqi iso refUUID) (refTemplate category refUUID) pid =
        some g ∧
      (g.filter fun r => r.reference).length = 1 ∧
      (g.filter fun r => r.reference && !r.isInput).length = 1 ∧
      ∀ r ∈ g, r.reference = true →
        r.isInput = false ∧ r.amount = 1 ∧ r.unit = chars "kg" := by
  obtain ⟨b, hbmem, hbpid⟩ := List.mem_map.mp hpid
  obtain ⟨hbref, hbinp, hbflow, c, hc, hbid⟩ := mem_buildOlcaRows hbmem
  have hpidnan : pid ≠ chars "nan" := by
    rw [← hbpid, hbid]
    exact hu _
  have hne : (refTemplate category refUUID).processID ≠ pid :=
    fun hx => hpidnan hx.symm
  have hfilT : ([refTemplate category refUUID].filter
      fun r => r.processID == pid) = [] := by
    rw [List.filter_cons, if_neg (by simp [hne]), List.filter_nil]
  have hgroup : ((finalExchangeSet codes csv uuid fm provs params pm
      category dqi iso refUUID).filter fun r => r.processID == pid) =
      ((buildOlcaRows codes csv uuid fm provs params pm category dqi
        iso).filter fun r => r.processID == pid) := by
    unfold finalExchangeSet
    rw [List.filter_append, hfilT, List.append_nil]
  have hbfil : b ∈ ((buildOlcaRows codes csv uuid fm provs params pm
      category dqi iso).filter fun r => r.processID == pid) :=
    List.mem_filter.mpr ⟨hbmem, beq_iff_eq.mpr hbpid⟩
  have hBprop : ∀ x ∈ ((buildOlcaRows codes csv uuid fm provs params pm
      category dqi iso).filter fun r => r.processID == pid),
      x.reference = false ∧ (x.flowName != some refFlowName) = true := by
    intro x hx
    have hxB := (List.mem_filter.mp hx).1
    obtain ⟨hxref, _, hxflow, _⟩ := mem_buildOlcaRows hxB
    refine ⟨hxref, ?_⟩
    rcases hxflow with h | ⟨e, he, hee⟩
    · simp [h, refFlowName]
    · rw [hee]
      simpa using hf e he
  obtain ⟨g0, hg0⟩ : ∃ g0 : List ExchangeRow,
      ((buildOlcaRows codes csv uuid fm provs params pm category dqi
        iso).filter fun r => r.processID == pid) ++
      [{ refTemplate category refUUID with processID := pid }] = g0 :=
    ⟨_, rfl⟩
  have hdonor : ∃ d : ExchangeRow,
      g0.find? (fun r => r.flowName != some refFlowName) = some d := by
    rw [← Option.isSome_iff_exists]
    apply List.find?_isSome.mpr
    refine ⟨b, ?_, (hBprop b hbfil).2⟩
    rw [← hg0]
    exact List.mem_append_left _ hbfil
  obtain ⟨d, hd⟩ := hdonor
  refine ⟨updateRefRows d.processName g0, ?_, ?_, ?_, ?_⟩
  · simp only [processGroup]
    rw [hgroup, hg0, hd]
  · rw [← hg0]
    rw [filter_updateRefRows _ _ _ (by
      intro (r : ExchangeRow)
      by_cases hc2 : r.flowName = some refFlowName <;> simp [hc2])]
    rw [List.filter_append]
    rw [List.filter_eq_nil_iff.mpr (fun x hx hxr => by
      rw [(hBprop x hx).1] at hxr
      exact Bool.false_ne_true hxr)]
    rfl
  · rw [← hg0]
    rw [filter_updateRefRows _ _ _ (by
      intro (r : ExchangeRow)
      by_cases hc2 : r.flowName = some refFlowName <;> simp [hc2])]
    rw [List.filter_append]
    rw [List.filter_eq_nil_iff.mpr (fun x hx hxr => by
      rw [(hBprop x hx).1] at hxr
      simp at hxr)]
    rfl
  · intro r hr hrref
    rw [← hg0] at hr
    obtain ⟨r0, hr0, hre, hin, ham, hun⟩ := mem_updateRefRows hr
    rcases List.mem_append.mp hr0 with h0 | h0
    · rw [(hBprop r0 h0).1] at hre
      rw [hre] at hrref
      exact absurd hrref (by simp)
    · have hr0t : r0 = { refTemplate category refUUID with processID := pid } :=
        List.mem_singleton.mp h0
      subst hr0t
      exact ⟨by rw [hin]; rfl, by rw [ham]; rfl, by rw [hun]; rfl⟩

/-- C2 witness: the coal process of the sample pipeline. -/
theorem c2_one_reference_row_witness :
    ∃ g, processGroup (finalExchangeSet sampleCodes sampleCsv sampleUuid
        sampleFlowMap sampleProvs sampleParams paramMap sampleCategory
        sampleDqi sampleIso (chars "ref-uuid"))
        (refTemplate sampleCategory (chars "ref-uuid"))
        (chars "id-Transport; average mix; coal") = some g ∧
      (g.filter fun r => r.reference).length = 1 ∧
      (g.filter fun r => r.reference && !r.isInput).length = 1 ∧
      ∀ r ∈ g, r.reference = true →
        r.isInput = false ∧ r.amount = 1 ∧ r.unit = chars "kg" :=
  c2_one_reference_row sampleCodes sampleCsv sampleUuid sampleFlowMap
    sampleProvs sampleParams paramMap sampleCategory sampleDqi sampleIso
    (chars "ref-uuid") (chars "id-Transport; average mix; coal")
    (by
      intro s hcon
      have := congrArg (fun l => l.take 3) hcon
      simp [sampleUuid, chars] at this)
    (by decide)
    (by decide)


theorem buildParamRows_ok {pm : List (List ℕ × List ℕ)} :
    ∀ (rows : List CsvRow) (base : ℕ),
      (∀ r ∈ rows, (dlookup (normalizeMode r.transportMode)
        (normParamMap pm)).isSome = true) →
      buildParamRows pm base rows = .ok (rows.flatMap (rowTriple pm)) := by
  intro rows
  induction rows with
  | nil => intro base _; rfl
  | cons r rest ih =>
    intro base h
    have h0 := h r (by simp)
    rcases Option.isSome_iff_exists.mp h0 with ⟨k, hk⟩
    have hrec := ih (base + 1) (fun x hx => h x (List.mem_cons_of_mem r hx))
    simp only [buildParamRows, hk, hrec, List.flatMap_cons]
    unfold rowTriple
    rw [hk]

theorem heads_differ {a b : ℕ} {l1 l2 m1 m2 : List ℕ} (hab : a ≠ b) :
    (a :: l1) ++ m1 ≠ (b :: l2) ++ m2 := by
  intro h
  rw [List.cons_append, List.cons_append] at h
  injection h with h1 _
  exact hab h1

theorem paramName_inj {k1 k2 s1 s2 : List ℕ}
    (h1 : s1 ∈ [chars "_dist", chars "_mass_frac", chars "_kgkm"])
    (h2 : s2 ∈ [chars "_dist", chars "_mass_frac", chars "_kgkm"])
    (h : k1 ++ s1 = k2 ++ s2) : k1 = k2 ∧ s1 = s2 := by
  have hrev := congrArg List.reverse h
  rw [List.reverse_append, List.reverse_append] at hrev
  have ed : (chars "_dist").reverse = 116 :: [115, 105, 100, 95] := by decide
  have em : (chars "_mass_frac").reverse =
      99 :: [97, 114, 102, 95, 115, 115, 97, 109, 95] := by decide
  have ek : (chars "_kgkm").reverse = 109 :: [107, 103, 107, 95] := by decide
  have hcancel : s1 = s2 → k1 = k2 := by
    intro hs
    subst hs
    exact List.append_cancel_right h
  simp only [List.mem_cons, List.not_mem_nil, or_false] at h1 h2
  rcases h1 with rfl | rfl | rfl <;> rcases h2 with rfl | rfl | rfl
  · exact ⟨hcancel rfl, rfl⟩
  · rw [ed, em] at hrev
    exact absurd hrev (heads_differ (by decide))
  · rw [ed, ek] at hrev
    exact absurd hrev (heads_differ (by decide))
  · rw [em, ed] at hrev
    exact absurd hrev (heads_differ (by decide))
  · exact ⟨hcancel rfl, rfl⟩
  · rw [em, ek] at hrev
    exact absurd hrev (heads_differ (by decide))
  · rw [ek, ed] at hrev
    exact absurd hrev (heads_differ (by decide))
  · rw [ek, em] at hrev
    exact absurd hrev (heads_differ (by decide))
  · exact ⟨hcancel rfl, rfl⟩

theorem filter_flatMap {α β : Type} (p : β → Bool) (f : α → List β)
    (l : List α) :
    (l.flatMap f).filter p = l.flatMap (fun a => (f a).filter p) := by
  induction l with
  | nil => rfl
  | cons a rest ih =>
    rw [List.flatMap_cons, List.flatMap_cons, List.filter_append, ih]

theorem flatMap_eq_nil_of {α β : Type} {f : α → List β} {l : List α}
    (h : ∀ a ∈ l, f a = []) : l.flatMap f = [] := by
  induction l with
  | nil => rfl
  | cons a rest ih =>
    rw [List.flatMap_cons, h a (by simp), List.nil_append]
    exact ih (fun x hx => h x (List.mem_cons_of_mem a hx))

theorem rowTriple_filter_ne {x r : CsvRow} {K : List ℕ}
    (hkey : paramRowKey paramMap x ≠ paramRowKey paramMap r)
    (hK : dlookup (normalizeMode r.transportMode) (normParamMap paramMap)
      = some K) :
    (rowTriple paramMap x).filter (fun p =>
      p.processName == paramProcessName r.commodity &&
      (p.name == K ++ chars "_dist" || p.name == K ++ chars "_mass_frac" ||
       p.name == K ++ chars "_kgkm")) = [] := by
  unfold rowTriple
  cases hx : dlookup (normalizeMode x.transportMode) (normParamMap paramMap)
    with
  | none => rfl
  | some k =>
    by_cases hpn : paramProcessName x.commodity = paramProcessName r.commodity
    · have hkK : k ≠ K := by
        intro hkk
        apply hkey
        unfold paramRowKey
        rw [hx, hK, hpn, hkk]
      apply List.filter_eq_nil_iff.mpr
      intro p hp hpred
      simp only [Bool.and_eq_true, Bool.or_eq_true, beq_iff_eq] at hpred
      have hname := hpred.2
      have hpnames : p.name = k ++ chars "_dist" ∨
          p.name = k ++ chars "_mass_frac" ∨
          p.name = k ++ chars "_kgkm" := by
        simp only [paramTriple, List.mem_cons, List.not_mem_nil, or_false]
          at hp
        rcases hp with rfl | rfl | rfl
        · exact Or.inl rfl
        · exact Or.inr (Or.inl rfl)
        · exact Or.inr (Or.inr rfl)
      rcases hpnames with hq | hq | hq <;>
        rw [hq] at hname <;>
        rcases hname with (hn | hn) | hn <;>
        exact hkK (paramName_inj (by decide) (by decide) hn).1
    · apply List.filter_eq_nil_iff.mpr
      intro p hp hpred
      simp only [Bool.and_eq_true, Bool.or_eq_true, beq_iff_eq] at hpred
      have hpname : p.processName = paramProcessName x.commodity := by
        simp only [paramTriple, List.mem_cons, List.not_mem_nil, or_false]
          at hp
        rcases hp with rfl | rfl | rfl <;> rfl
      rw [hpname] at hpred
      exact hpn hpred.1

/-- C1: for every CSV row (process P, mode M with key K), the parameter
table built by `build_df_params` contains exactly three parameters scoped
to P's process name and named over K: the input `K_dist` valued at the
row's average distance, the input `K_mass_frac` valued at the row's mass
fraction, and the derived `K_kgkm` with no numeric value, whose formula
string is the literal concatenation `K_dist*K_mass_frac`.  Hypotheses:
every mode maps (so the build succeeds) and no two rows share a
(process name, mode key) pair. -/
theorem c1_param_triples (rows : List CsvRow) (r : CsvRow) (K : List ℕ)
    (hmem : r ∈ rows)
    (hok : ∀ x ∈ rows, (dlookup (normalizeMode x.transportMode)
      (normParamMap paramMap)).isSome = true)
    (hK : dlookup (normalizeMode r.transportMode) (normParamMap paramMap)
      = some K)
    (hnd : (rows.map (paramRowKey paramMap)).Nodup) :
    ∃ ps, build_df_params rows paramMap = .ok ps ∧
      ps.filter (fun p =>
        p.processName == paramProcessName r.commodity &&
        (p.name == K ++ chars "_dist" || p.name == K ++ chars "_mass_frac" ||
         p.name == K ++ chars "_kgkm")) =
      [⟨paramProcessName r.commodity, chars "", chars "TRUE",
          K ++ chars "_dist", some r.avgDist, chars "km"⟩,
       ⟨paramProcessName r.commodity, chars "", chars "TRUE",
          K ++ chars "_mass_frac", some r.massFrac,
          chars "fraction of all commodity shipped by current mode"⟩,
       ⟨paramProcessName r.commodity,
          (K ++ chars "_dist") ++ chars "*" ++ (K ++ chars "_mass_frac"),
          chars "FALSE", K ++ chars "_kgkm", none,
          chars "kg*km; average mass distance per shipment"⟩] := by
  refine ⟨_, buildParamRows_ok rows 0 hok, ?_⟩
  obtain ⟨P, hP⟩ : ∃ P : ParamRow → Bool, (fun p : ParamRow =>
      p.processName == paramProcessName r.commodity &&
      (p.name == K ++ chars "_dist" || p.name == K ++ chars "_mass_frac" ||
       p.name == K ++ chars "_kgkm")) = P := ⟨_, rfl⟩
  rw [hP]
  rw [filter_flatMap]
  obtain ⟨l1, l2, hsplit⟩ := List.append_of_mem hmem
  subst hsplit
  rw [List.map_append, List.map_cons] at hnd
  rw [List.nodup_append] at hnd
  obtain ⟨_, hnd2, hdisj⟩ := hnd
  rw [List.nodup_cons] at hnd2
  have hne1 : ∀ x ∈ l1, paramRowKey paramMap x ≠ paramRowKey paramMap r := by
    intro x hx hxy
    exact (hdisj (List.mem_map.mpr ⟨x, hx, hxy⟩)) (by simp)
  have hne2 : ∀ x ∈ l2, paramRowKey paramMap x ≠ paramRowKey paramMap r := by
    intro x hx hxy
    exact hnd2.1 (List.mem_map.mpr ⟨x, hx, hxy⟩)
  rw [List.flatMap_append, List.flatMap_cons]
  have hl1 : l1.flatMap (fun a => (rowTriple paramMap a).filter P) = [] := by
    apply flatMap_eq_nil_of
    intro x hx
    rw [← hP]
    exact rowTriple_filter_ne (hne1 x hx) hK
  have hl2 : l2.flatMap (fun a => (rowTriple paramMap a).filter P) = [] := by
    apply flatMap_eq_nil_of
    intro x hx
    rw [← hP]
    exact rowTriple_filter_ne (hne2 x hx) hK
  rw [hl1, hl2, List.nil_append, List.append_nil]
  have hmid : rowTriple paramMap r = paramTriple K r := by
    unfold rowTriple
    rw [hK]
  rw [hmid, ← hP]
  simp [paramTriple, List.filter_cons]

/-- C1 witness: the coal-by-rail row of the sample dataset yields exactly
the triple `rail_dist = 500`, `rail_mass_frac = 3/5`, and `rail_kgkm`
with formula `rail_dist*rail_mass_frac`. -/
theorem c1_param_triples_witness :
    ∃ ps, build_df_params sampleCsv paramMap = .ok ps ∧
      ps.filter (fun p =>
        p.processName == paramProcessName (chars "Coal") &&
        (p.name == chars "rail" ++ chars "_dist" ||
         p.name == chars "rail" ++ chars "_mass_frac" ||
         p.name == chars "rail" ++ chars "_kgkm")) =
      [⟨paramProcessName (chars "Coal"), chars "", chars "TRUE",
          chars "rail" ++ chars "_dist", some 500, chars "km"⟩,
       ⟨paramProcessName (chars "Coal"), chars "", chars "TRUE",
          chars "rail" ++ chars "_mass_frac", some (3 / 5),
          chars "fraction of all commodity shipped by current mode"⟩,
       ⟨paramProcessName (chars "Coal"),
          (chars "rail" ++ chars "_dist") ++ chars "*" ++
            (chars "rail" ++ chars "_mass_frac"),
          chars "FALSE", chars "rail" ++ chars "_kgkm", none,
          chars "kg*km; average mass distance per shipment"⟩] :=
  c1_param_triples sampleCsv
    ⟨chars "Coal", chars "rail", 500, 3 / 5, 300⟩ (chars "rail")
    (List.mem_cons_self _ _) (by decide) (by decide) (by decide)
